import Mathlib

/-!
Verification of the dictarray repository (an in-memory, schema-carrying
tabular record store built over numpy structured arrays).

Shallow embedding of:
  - src/dictarray.py          (DictArray: itemindex / itemexists / extract,
                               the dictarray constructor)
  - src/dictarray_mutable.py  (module-level append with type promotion,
                               MutableDictArray, FileDictArray, writedictarray)
  - src/dictarray_relational.py (isrelational, can_append,
                               RelationalDictArray, FileRelationalDictArray)
  - src/fileio.py             (DictArrayWriter: header + row lines)

Tables are modelled as a list of field names, a parallel list of column
kinds, and a list of rows (each row a list of values parallel to the
names).  Machine numerics are modelled exactly: integer cells as Int,
floating-point cells as Rat (no claim below performs floating-point
arithmetic; floats only ever get stored, compared for equality, and have
their column kind inspected).  Fallible code returns Except / Option.
-/

/-- Column kinds of the numpy dtypes the repository manipulates:
`void` is the `V4` placeholder dtype that `dictarray(names=...)` gives an
empty table (src/dictarray.py lines 162-168), the others are the value
kinds of the promotion lattice boolean / integer / floating-point / text. -/
inductive Ty
  | void
  | bool
  | int
  | float
  | text
deriving DecidableEq, Repr

/-- Rank of a kind in numpy's promotion order as exercised by the code:
boolean below integer below floating-point below text. -/
def Ty.rank : Ty → Nat
  | Ty.void => 0
  | Ty.bool => 1
  | Ty.int => 2
  | Ty.float => 3
  | Ty.text => 4

/-- Models `numpy.result_type` on the column dtypes that occur in the
repository (src/dictarray_mutable.py line 78): the larger kind in the
promotion order wins (integer + floating-point gives floating-point,
integer + text gives text, per the spec lattice and numpy 1.9 promotion). -/
def promoteTy (s t : Ty) : Ty :=
  if s.rank ≤ t.rank then t else s

/-- A single cell value of a table. -/
inductive Value
  | vBool (b : Bool)
  | vInt (n : Int)
  | vFloat (q : ℚ)
  | vText (s : String)
deriving DecidableEq, Repr

/-- Numeric reading of a value, when it has one.  numpy compares booleans,
integers and floats numerically after promotion; strings have no numeric
reading. -/
def Value.toRatOpt : Value → Option ℚ
  | Value.vBool b => some (if b then 1 else 0)
  | Value.vInt n => some (n : ℚ)
  | Value.vFloat q => some q
  | Value.vText _ => none

/-- Text rendering of a value: models Python `str` applied to a numpy
scalar, which is what `csv.DictWriter.writerow` writes to the backing
file (src/fileio.py) and what `astype` to a string dtype stores. -/
def Value.textOf : Value → String
  | Value.vBool b => if b then "True" else "False"
  | Value.vInt n => toString n
  | Value.vFloat q => toString q
  | Value.vText s => s

/-- Elementwise equality as tested by `numpy.in1d` after type promotion
(src/dictarray.py line 99, src/dictarray_relational.py line 90): numeric
values compare by numeric value, text compares by text, and a text value
never equals a numeric one (per the can_append doctests, where the string
value of 1 does not match the integer 1 unless asstring is set). -/
def valueEq (x y : Value) : Bool :=
  match x.toRatOpt, y.toRatOpt with
  | some a, some b => decide (a = b)
  | none, none => decide (x.textOf = y.textOf)
  | _, _ => false

/-- Truncation toward zero of a rational, as numpy's unsafe cast from a
floating-point to an integer dtype does.  (No verified claim exercises
this cast; it is included so `castValue` covers the whole lattice.) -/
def ratTrunc (q : ℚ) : Int :=
  if 0 ≤ q then ⌊q⌋ else -⌊-q⌋

/-- Models `astype(..., casting=unsafe)` on one cell
(src/dictarray_mutable.py lines 79-80): widen or truncate the value to
the target kind, never failing. -/
def castValue (t : Ty) (v : Value) : Value :=
  match t with
  | Ty.void => v
  | Ty.bool =>
    match v.toRatOpt with
    | some q => Value.vBool (decide (q ≠ 0))
    | none => v
  | Ty.int =>
    match v.toRatOpt with
    | some q => Value.vInt (ratTrunc q)
    | none => v
  | Ty.float =>
    match v.toRatOpt with
    | some q => Value.vFloat q
    | none => v
  | Ty.text => Value.vText v.textOf

/-- Does a value inhabit a column kind?  The `void` placeholder dtype of
a schema-only empty table holds no values at all. -/
def valHasTy : Ty → Value → Bool
  | Ty.void, _ => false
  | Ty.bool, Value.vBool _ => true
  | Ty.int, Value.vInt _ => true
  | Ty.float, Value.vFloat _ => true
  | Ty.text, Value.vText _ => true
  | _, _ => false

/-- A DictArray (src/dictarray.py class DictArray): named, kinded columns
and a sequence of rows.  `names` and `tys` are parallel; every row is
parallel to `names`. -/
structure DictArray where
  names : List String
  tys : List Ty
  rows : List (List Value)
deriving DecidableEq, Repr

/-- Index of the first occurrence of a name in a name list (models numpy
field lookup by name; field names are unique in a structured dtype). -/
def idxOf? : List String → String → Option Nat
  | [], _ => none
  | m :: ms, n => if m = n then some 0 else (idxOf? ms n).map (fun j => j + 1)

/-- Position of a field name in the dtype, none when the name is absent
(numpy raises in that case). -/
def DictArray.fieldIdx (d : DictArray) (n : String) : Option Nat :=
  idxOf? d.names n

/-- Column kind under a field name (void when absent; callers only use it
for present names). -/
def DictArray.tyOf (d : DictArray) (n : String) : Ty :=
  match d.fieldIdx n with
  | some j => d.tys.getD j Ty.void
  | none => Ty.void

/-- The cell a row holds under a field name of table `d` (only used for
names present in `d.names`; the default is unreachable on parallel rows). -/
def rowVal (d : DictArray) (r : List Value) (n : String) : Value :=
  match d.fieldIdx n with
  | some j => r.getD j (Value.vInt 0)
  | none => Value.vInt 0

/-- Models `self.field(name)` (numpy column extraction): the column under
a field name, or none when the name is not in the dtype, in which case
the Python code raises. -/
def DictArray.colOf (d : DictArray) (n : String) : Option (List Value) :=
  match d.fieldIdx n with
  | some j => some (d.rows.map (fun r => r.getD j (Value.vInt 0)))
  | none => none

/-- Models `isempty` (src/dictarray_mutable.py lines 32-43): a table is
empty iff it holds no rows (`not bool(arr.size)`); a table can be empty
yet have a declared schema. -/
def isempty (d : DictArray) : Bool :=
  d.rows.isEmpty

/-- Structural well-formedness of a table: unique field names, kinds
parallel to names, rows parallel to names, and every cell inhabiting its
column's kind.  This is the invariant numpy structured arrays maintain
by construction. -/
def WF (d : DictArray) : Prop :=
  d.names.Nodup ∧ d.tys.length = d.names.length ∧
    ∀ r ∈ d.rows, r.length = d.names.length ∧
      ∀ j, j < r.length →
        valHasTy (d.tys.getD j Ty.void) (r.getD j (Value.vInt 0)) = true

instance (d : DictArray) : Decidable (WF d) := by
  unfold WF
  exact inferInstance

/-- Concatenation of a list of lists (`numpy.concatenate` over the
per-predicate index arrays of `itemindex`). -/
def joinAll : List (List α) → List α
  | [] => []
  | l :: ls => l ++ joinAll ls

/-- The value table `d` holds at row `i`, column position `j`. -/
def valueAt (d : DictArray) (i j : Nat) : Value :=
  (d.rows.getD i []).getD j (Value.vInt 0)

/-- Row positions whose value under field `k` is a member of the value
set `vs`: models `np.nonzero(in1d(col, val))` for the 1-d column
`col = self.field(k)` (src/dictarray.py lines 97-99); positions come out
in increasing order, each at most once.  none models the exception numpy
raises when `k` is not a field of the dtype. -/
def matchPositions (d : DictArray) (k : String) (vs : List Value) : Option (List Nat) :=
  match d.fieldIdx k with
  | some j =>
    some ((List.range d.rows.length).filter
      (fun i => vs.any (fun v => valueEq (valueAt d i j) v)))
  | none => none

/-- The per-field position list with the Option removed (callers use it
only under the premise that the field exists). -/
def matchList (d : DictArray) (k : String) (vs : List Value) : List Nat :=
  (matchPositions d k vs).getD []

/-- The loop of `itemindex` (src/dictarray.py lines 95-100): one index
array per predicate, failing at the first unknown field name. -/
def collectIds (d : DictArray) : List (String × List Value) → Option (List (List Nat))
  | [] => some []
  | p :: ps =>
    match matchPositions d p.1 p.2, collectIds d ps with
    | some l, some ls => some (l :: ls)
    | _, _ => none

/-- Models `DictArray.itemindex` (src/dictarray.py lines 94-101).  The
per-predicate `np.nonzero` results are 1-tuples of index arrays; the
final `tuple(concatenate(i) for i in zip(*ids))` therefore yields the
empty tuple when no predicate was given, and otherwise a 1-tuple holding
the concatenation, in predicate order, of the per-field position lists. -/
def DictArray.itemindex (d : DictArray) (preds : List (String × List Value)) :
    Option (List (List Nat)) :=
  match collectIds d preds with
  | some ids => some (if ids.isEmpty then [] else [joinAll ids])
  | none => none

/-- Models `DictArray.itemexists` (src/dictarray.py lines 107-108):
`bool(self.itemindex(**kwargs))`, i.e. the truth value of the returned
tuple, which is the emptiness test of the tuple itself, not of the
position array it wraps. -/
def DictArray.itemexists (d : DictArray) (preds : List (String × List Value)) :
    Option Bool :=
  match d.itemindex preds with
  | some t => some (!t.isEmpty)
  | none => none

/-- Models `DictArray.extract` (src/dictarray.py lines 103-105) for an
explicit field argument: take the matched rows and project the field. -/
def DictArray.extract (d : DictArray) (f : String)
    (preds : List (String × List Value)) : Option (List Value) :=
  match d.itemindex preds with
  | some t =>
    match d.colOf f with
    | some col => some ((joinAll t).map (fun i => col.getD i (Value.vInt 0)))
    | none => none
  | none => none

/-- Exceptions raised by the embedded operations, per the spec taxonomy:
`fieldNotFound` models numpy's error on looking up / selecting an absent
field name, `duplicateKey` models the ValueError `RelationalDictArray.append`
raises when the primary-key guard rejects
(src/dictarray_relational.py lines 150-156). -/
inductive Err
  | fieldNotFound
  | duplicateKey
deriving DecidableEq, Repr

/-- Inputs the repository feeds to the `dictarray` constructor on the
paths exercised here: no data (an empty list or None), or an existing
table (a structured array). -/
inductive Obj
  | emptyObj
  | table (d : DictArray)

/-- Models construction of a dictarray from an existing structured array
with explicit names (src/dictarray.py lines 198-203): `obj = obj[names]`
is numpy multi-field selection, which picks the requested fields by name
in the requested order, raises when a requested name is absent, and
silently drops fields of `obj` that were not requested. -/
def selectFields (d : DictArray) (ns : List String) : Except Err DictArray :=
  if ns.all (fun n => decide (n ∈ d.names)) then
    Except.ok
      { names := ns
        tys := ns.map d.tyOf
        rows := d.rows.map (fun r => ns.map (fun n => rowVal d r n)) }
  else Except.error Err.fieldNotFound

/-- Models the `dictarray` constructor (src/dictarray.py lines 119-206)
on the inputs above.  An empty input with names yields a zero-row table
whose columns carry the `V4` placeholder dtype; a structured-array input
passes through unchanged unless names are given, in which case the named
fields are selected. -/
def dictarrayCtor : Obj → Option (List String) → Except Err DictArray
  | Obj.emptyObj, none => Except.ok { names := [], tys := [], rows := [] }
  | Obj.emptyObj, some ns =>
    Except.ok { names := ns, tys := ns.map (fun _ => Ty.void), rows := [] }
  | Obj.table d, none => Except.ok d
  | Obj.table d, some ns => selectFields d ns

/-- The non-empty branch of module-level `append`
(src/dictarray_mutable.py lines 77-82): per field name of `a`, the
promoted dtype is `result_type(arr[n], brr[n])` — this raises when a
field of `a` is absent from `b`; both tables are then `astype`-cast to
the promoted dtype, which realigns `b`'s fields to `a`'s names by name
(module doctest d1, where names b,a append onto names a,b) and drops
fields of `b` not named by `a`; finally the rows are concatenated with
`a`'s rows first. -/
def nonEmptyAppend (a b : DictArray) : Except Err DictArray :=
  if a.names.all (fun n => decide (n ∈ b.names)) then
    Except.ok
      { names := a.names
        tys := a.names.map (fun n => promoteTy (a.tyOf n) (b.tyOf n))
        rows :=
          a.rows.map (fun r =>
            a.names.map (fun n =>
              castValue (promoteTy (a.tyOf n) (b.tyOf n)) (rowVal a r n))) ++
          b.rows.map (fun r =>
            a.names.map (fun n =>
              castValue (promoteTy (a.tyOf n) (b.tyOf n)) (rowVal b r n))) }
  else Except.error Err.fieldNotFound

/-- Models module-level `append(a, b)` (src/dictarray_mutable.py lines
46-82), for `a` already a table and `b` one of the constructor inputs:
an empty candidate returns `a` unchanged; a non-empty candidate appended
to an empty `a` with declared names is rebuilt as
`dictarray(b, names=a.dtype.names)`; appended to an empty nameless `a`
it is adopted as-is; otherwise both tables are unified and concatenated. -/
def appendDA (a : DictArray) (bobj : Obj) : Except Err DictArray :=
  match dictarrayCtor bobj none with
  | Except.error e => Except.error e
  | Except.ok brr =>
    if isempty brr then Except.ok a
    else if isempty a then
      if a.names.isEmpty then Except.ok brr
      else dictarrayCtor bobj (some a.names)
    else nonEmptyAppend a brr

/-- Models `isrelational` (src/dictarray_relational.py lines 34-61): with
a primary key and a named dtype, the key's column must hold pairwise
distinct values (numpy `unique` keeps one copy per distinct value; the
column is homogeneous, so structural distinctness coincides with numpy
equality); with a primary key but no named dtype the answer is True; with
no primary key the whole rows must be pairwise distinct.  none models the
exception `arr.field` raises on an absent key. -/
def isrelational (d : DictArray) (pk : Option String) : Option Bool :=
  match pk with
  | some k =>
    if d.names.isEmpty then some true
    else
      match d.colOf k with
      | some col => some (decide col.Nodup)
      | none => none
  | none => some (decide d.rows.Nodup)

/-- Models `can_append(a, b, primarykey)` as called by
`RelationalDictArray.append` (src/dictarray_relational.py lines 64-92,
without the asstring normalization, which that caller never sets): with
no primary key the answer is True; otherwise the key columns of both
tables are extracted (an empty column when a table has no named dtype),
and the append is allowed iff no candidate key value occurs among the
existing key values and the candidate column is itself duplicate-free. -/
def can_append (a b : DictArray) (pk : Option String) : Option Bool :=
  match pk with
  | none => some true
  | some k =>
    match (if a.names.isEmpty then some [] else a.colOf k) with
    | none => none
    | some aval =>
      match (if b.names.isEmpty then some [] else b.colOf k) with
      | none => none
      | some bval =>
        some ((!bval.any (fun v => aval.any (fun w => valueEq v w)))
              && decide bval.Nodup)

/-- State of a `RelationalDictArray` (src/dictarray_relational.py):
the owned table snapshot and the optional primary-key field name. -/
structure RelState where
  data : DictArray
  primarykey : Option String
deriving DecidableEq, Repr

/-- Models `RelationalDictArray.append` (src/dictarray_relational.py
lines 144-156): when the table is non-empty the candidate must pass
`can_append`; when it is empty the candidate itself must be relational
under the primary key; on rejection a ValueError (DuplicateKeyError) is
raised before any mutation, so the error branches leave no new state. -/
def relationalAppend (s : RelState) (obj : Obj) : Except Err RelState :=
  match dictarrayCtor obj none with
  | Except.error e => Except.error e
  | Except.ok arr =>
    if !isempty s.data then
      match can_append s.data arr s.primarykey with
      | none => Except.error Err.fieldNotFound
      | some true =>
        match appendDA s.data (Obj.table arr) with
        | Except.error e => Except.error e
        | Except.ok d2 => Except.ok { data := d2, primarykey := s.primarykey }
      | some false => Except.error Err.duplicateKey
    else
      match isrelational arr s.primarykey with
      | none => Except.error Err.fieldNotFound
      | some true =>
        match appendDA s.data (Obj.table arr) with
        | Except.error e => Except.error e
        | Except.ok d2 => Except.ok { data := d2, primarykey := s.primarykey }
      | some false => Except.error Err.duplicateKey

/-- A Python `raise` leaves the object it was called on untouched: the
run view of `relationalAppend` pairs the post-call state with the raised
error, keeping the prior state on the error path. -/
def relationalAppendRun (s : RelState) (obj : Obj) : RelState × Option Err :=
  match relationalAppend s obj with
  | Except.ok s2 => (s2, none)
  | Except.error e => (s, some e)

/-- State of a `FileDictArray` (src/dictarray_mutable.py lines 198-245):
the owned table snapshot plus the backing file's content, one written
line per entry, each line a list of tab-separated cells. -/
structure FileState where
  data : DictArray
  file : List (List String)
deriving DecidableEq, Repr

/-- Models the body of `FileDictArray.append` (src/dictarray_mutable.py
lines 240-245) given the pre-call table and file: the candidate is built
with the wrapper's current field names when any are declared; whether a
header is due is decided by the table's emptiness before mutation; the
in-memory append runs; on success only, `writedictarray`
(lines 190-195) appends the header line (field names) when due followed
by exactly the candidate's rows, rendered by `csv.DictWriter`. -/
def fileAppendStep (data : DictArray) (file : List (List String)) (obj : Obj) :
    Except Err (DictArray × List (List String)) :=
  match dictarrayCtor obj (if data.names.isEmpty then none else some data.names) with
  | Except.error e => Except.error e
  | Except.ok arr =>
    match appendDA data (Obj.table arr) with
    | Except.error e => Except.error e
    | Except.ok d2 =>
      Except.ok (d2,
        file ++ (if isempty data then [arr.names] else [])
             ++ arr.rows.map (fun r => r.map Value.textOf))

/-- Models `FileDictArray.append` as a state transformer. -/
def fileDictArrayAppend (s : FileState) (obj : Obj) : Except Err FileState :=
  match fileAppendStep s.data s.file obj with
  | Except.error e => Except.error e
  | Except.ok p => Except.ok { data := p.1, file := p.2 }

/-- State of a `FileRelationalDictArray` (src/dictarray_relational.py
lines 177-223): table snapshot, primary key, backing file content. -/
structure FileRelState where
  data : DictArray
  primarykey : Option String
  file : List (List String)
deriving DecidableEq, Repr

/-- Models `append` on a `FileRelationalDictArray`: by method resolution
order `RelationalDictArray.append` runs first and its `super` call lands
in `FileDictArray.append`, so the primary-key guard is checked before
anything is written; a rejection raises before the in-memory append and
before the file write. -/
def fileRelationalAppend (s : FileRelState) (obj : Obj) : Except Err FileRelState :=
  match dictarrayCtor obj none with
  | Except.error e => Except.error e
  | Except.ok arr =>
    if !isempty s.data then
      match can_append s.data arr s.primarykey with
      | none => Except.error Err.fieldNotFound
      | some true =>
        match fileAppendStep s.data s.file (Obj.table arr) with
        | Except.error e => Except.error e
        | Except.ok p =>
          Except.ok { data := p.1, primarykey := s.primarykey, file := p.2 }
      | some false => Except.error Err.duplicateKey
    else
      match isrelational arr s.primarykey with
      | none => Except.error Err.fieldNotFound
      | some true =>
        match fileAppendStep s.data s.file (Obj.table arr) with
        | Except.error e => Except.error e
        | Except.ok p =>
          Except.ok { data := p.1, primarykey := s.primarykey, file := p.2 }
      | some false => Except.error Err.duplicateKey

/-- Run view of `fileRelationalAppend`: a raise leaves both the in-memory
table and the backing file exactly as they were. -/
def fileRelationalAppendRun (s : FileRelState) (obj : Obj) :
    FileRelState × Option Err :=
  match fileRelationalAppend s obj with
  | Except.ok s2 => (s2, none)
  | Except.error e => (s, some e)

/-- The file-mirror invariant claimed by the spec: the backing file is
empty while the table is empty, and otherwise consists of the header
line (the field names) followed by exactly one line per row of the
in-memory table. -/
def mirrorInv (s : FileState) : Prop :=
  if s.data.rows.isEmpty then s.file = []
  else s.file.length = 1 + s.data.rows.length ∧ s.file.head? = some s.data.names

theorem idxOf?_eq_none_iff (l : List String) (n : String) :
    idxOf? l n = none ↔ n ∉ l := by
  induction l with
  | nil => simp [idxOf?]
  | cons m ms ih =>
    by_cases h : m = n
    · simp [idxOf?, h]
    · simp [idxOf?, h, Option.map_eq_none', ih, Ne.symm h]

theorem idxOf?_mem {l : List String} {n : String} (h : n ∈ l) :
    ∃ j, idxOf? l n = some j := by
  cases h2 : idxOf? l n with
  | none => exact absurd ((idxOf?_eq_none_iff l n).1 h2) (not_not_intro h)
  | some j => exact ⟨j, rfl⟩

theorem idxOf?_lt {l : List String} {n : String} {j : Nat}
    (h : idxOf? l n = some j) : j < l.length := by
  induction l generalizing j with
  | nil => simp [idxOf?] at h
  | cons m ms ih =>
    by_cases hm : m = n
    · simp [idxOf?, hm] at h
      subst h
      simp
    · simp [idxOf?, hm] at h
      obtain ⟨j', hj', rfl⟩ := h
      have := ih hj'
      simp only [List.length_cons]
      omega

theorem map_getD_of_idxOf? {l : List String} {n : String} {j : Nat}
    (f : String → α) (h : idxOf? l n = some j) (d : α) :
    (l.map f).getD j d = f n := by
  induction l generalizing j with
  | nil => simp [idxOf?] at h
  | cons m ms ih =>
    by_cases hm : m = n
    · simp [idxOf?, hm] at h
      subst h
      simp [hm]
    · simp [idxOf?, hm] at h
      obtain ⟨j', hj', rfl⟩ := h
      simpa using ih hj'

theorem getD_of_idxOf? {l : List String} {n : String} {j : Nat}
    (h : idxOf? l n = some j) (d : String) : l.getD j d = n := by
  have := map_getD_of_idxOf? (fun x => x) h d
  simpa using this

theorem promoteTy_self (t : Ty) : promoteTy t t = t := by
  simp [promoteTy]

theorem ratTrunc_intCast (n : ℤ) : ratTrunc (n : ℚ) = n := by
  unfold ratTrunc
  split
  · exact Int.floor_intCast n
  · rw [show (-(n : ℚ)) = ((-n : ℤ) : ℚ) by push_cast; ring, Int.floor_intCast]
    ring

theorem castValue_of_hasTy {t : Ty} {v : Value} (h : valHasTy t v = true) :
    castValue t v = v := by
  cases t with
  | void => simp [valHasTy] at h
  | bool =>
    cases v with
    | vBool b => cases b <;> decide
    | vInt n => simp [valHasTy] at h
    | vFloat q => simp [valHasTy] at h
    | vText s => simp [valHasTy] at h
  | int =>
    cases v with
    | vBool b => simp [valHasTy] at h
    | vInt n =>
      show Value.vInt (ratTrunc (n : ℚ)) = Value.vInt n
      rw [ratTrunc_intCast]
    | vFloat q => simp [valHasTy] at h
    | vText s => simp [valHasTy] at h
  | float =>
    cases v with
    | vBool b => simp [valHasTy] at h
    | vInt n => simp [valHasTy] at h
    | vFloat q => rfl
    | vText s => simp [valHasTy] at h
  | text =>
    cases v with
    | vBool b => simp [valHasTy] at h
    | vInt n => simp [valHasTy] at h
    | vFloat q => simp [valHasTy] at h
    | vText s => rfl

theorem isempty_eq_false {d : DictArray} (h : d.rows ≠ []) :
    isempty d = false := by
  unfold isempty
  cases hd : d.rows with
  | nil => exact absurd hd h
  | cons x xs => rfl

theorem colOf_of_idxOf? (d : DictArray) (n : String) {j : Nat}
    (hj : idxOf? d.names n = some j) :
    d.colOf n = some (d.rows.map (fun r => r.getD j (Value.vInt 0))) := by
  simp [DictArray.colOf, DictArray.fieldIdx, hj]

theorem tyOf_of_idxOf? (d : DictArray) (n : String) {j : Nat}
    (hj : idxOf? d.names n = some j) :
    d.tyOf n = d.tys.getD j Ty.void := by
  simp [DictArray.tyOf, DictArray.fieldIdx, hj]

theorem rowVal_of_idxOf? (d : DictArray) (r : List Value) (n : String) {j : Nat}
    (hj : idxOf? d.names n = some j) :
    rowVal d r n = r.getD j (Value.vInt 0) := by
  simp [rowVal, DictArray.fieldIdx, hj]

theorem collectIds_eq_none {d : DictArray} {preds : List (String × List Value)}
    {k : String} {vs : List Value}
    (hmem : (k, vs) ∈ preds) (habs : k ∉ d.names) :
    collectIds d preds = none := by
  induction preds with
  | nil => cases hmem
  | cons p ps ih =>
    rcases List.mem_cons.1 hmem with hp | hp
    · have hnone : matchPositions d k vs = none := by
        simp [matchPositions, DictArray.fieldIdx, (idxOf?_eq_none_iff d.names k).2 habs]
      rw [← hp]
      simp [collectIds, hnone]
    · have := ih hp
      cases h1 : matchPositions d p.1 p.2 <;> simp [collectIds, h1, this]

/-- C7: appending an empty candidate table (zero rows, with or without a
declared schema) to any table returns that table unchanged in values and
schema — the first branch of module-level append
(src/dictarray_mutable.py lines 70-71) returns `dictarray(a)` untouched. -/
theorem c7_append_empty_identity (a b : DictArray) (hb : b.rows = []) :
    appendDA a (Obj.table b) = Except.ok a := by
  simp [appendDA, dictarrayCtor, isempty, hb]

def w7a : DictArray :=
  { names := ["a", "b"], tys := [Ty.int, Ty.float],
    rows := [[Value.vInt 7, Value.vFloat 2]] }

def w7b : DictArray :=
  { names := ["x", "y"], tys := [Ty.void, Ty.void], rows := [] }

/-- Witness for C7 at a concrete one-row table and an empty candidate
that declares a different schema. -/
theorem c7_append_empty_identity_witness :
    appendDA w7a (Obj.table w7b) = Except.ok w7a :=
  c7_append_empty_identity w7a w7b rfl

def c4table : DictArray :=
  { names := ["a", "b"], tys := [Ty.int, Ty.int],
    rows := [[Value.vInt 1, Value.vInt 2]] }

/-- C4 (code bug): on the table holding the single row a=1, b=2, the
query a=5 matches no row position — `itemindex` returns the 1-tuple
holding an empty index array — yet `itemexists` returns True, because
`bool(self.itemindex(...))` tests the truth of the tuple wrapper, which
is non-empty whenever at least one predicate was supplied
(src/dictarray.py lines 107-108). -/
theorem c4_itemexists_bug :
    c4table.itemindex [("a", [Value.vInt 5])] = some [([] : List Nat)] ∧
    c4table.itemexists [("a", [Value.vInt 5])] = some true := by
  constructor <;> rfl

/-- C9: querying through a predicate whose field name is not among the
table's field names makes `itemindex`, `itemexists` and `extract` all
raise (numpy field lookup failure inside the itemindex loop,
src/dictarray.py lines 94-108); none of them returns an empty result. -/
theorem c9_unknown_field_error (d : DictArray) (preds : List (String × List Value))
    (k : String) (vs : List Value) (f : String)
    (_hschema : d.names ≠ [])
    (hmem : (k, vs) ∈ preds) (habs : k ∉ d.names) :
    d.itemindex preds = none ∧ d.itemexists preds = none ∧
      d.extract f preds = none := by
  have h := collectIds_eq_none hmem habs
  refine ⟨?_, ?_, ?_⟩ <;>
    simp [DictArray.itemindex, DictArray.itemexists, DictArray.extract, h]

def w9d : DictArray :=
  { names := ["a", "b"], tys := [Ty.int, Ty.text],
    rows := [[Value.vInt 1, Value.vText "u"]] }

/-- Witness for C9 at a concrete table and an unknown predicate field. -/
theorem c9_unknown_field_error_witness :
    w9d.itemindex [("zz", [Value.vInt 1])] = none ∧
    w9d.itemexists [("zz", [Value.vInt 1])] = none ∧
    w9d.extract "a" [("zz", [Value.vInt 1])] = none :=
  c9_unknown_field_error w9d [("zz", [Value.vInt 1])] "zz" [Value.vInt 1] "a"
    (by decide) (by decide) (by decide)

/-- C10: on a file-mirrored table that is empty but declares field names,
appending an empty candidate leaves the in-memory table unchanged (the
empty-candidate branch of append returns it as-is) yet still appends a
header line to the backing file, because `FileDictArray.append` decides
the header write solely from the table's emptiness before the call and
`writedictarray` then writes the header and zero rows
(src/dictarray_mutable.py lines 240-245 and 190-195). -/
theorem c10_header_on_empty_append (s : FileState)
    (hempty : s.data.rows = []) (hnames : s.data.names ≠ []) :
    fileDictArrayAppend s Obj.emptyObj =
      Except.ok { data := s.data, file := s.file ++ [s.data.names] } := by
  have h1 : s.data.names.isEmpty = false := by
    cases h : s.data.names with
    | nil => exact absurd h hnames
    | cons x xs => rfl
  simp [fileDictArrayAppend, fileAppendStep, dictarrayCtor, appendDA,
    isempty, hempty, h1]

def w10s : FileState :=
  { data := { names := ["a", "b"], tys := [Ty.void, Ty.void], rows := [] },
    file := [] }

/-- Witness for C10 at a concrete empty, named, file-mirrored table. -/
theorem c10_header_on_empty_append_witness :
    fileDictArrayAppend w10s Obj.emptyObj =
      Except.ok { data := w10s.data, file := w10s.file ++ [w10s.data.names] } :=
  c10_header_on_empty_append w10s rfl (by decide)

theorem colOf_names_ne_nil {d : DictArray} {k : String} {c : List Value}
    (h : d.colOf k = some c) : d.names.isEmpty = false := by
  cases hn : d.names with
  | nil =>
    rw [DictArray.colOf, DictArray.fieldIdx, hn] at h
    simp [idxOf?] at h
  | cons x xs => rfl

/-- C1: with a primary key set and the table non-empty, a candidate whose
primary-key values overlap the held primary-key values is fully rejected:
`RelationalDictArray.append` raises its DuplicateKeyError before calling
the super-class append (src/dictarray_relational.py lines 144-156), so
neither the in-memory table (rows and schema) nor — in the file-mirrored
variant, whose method resolution order runs the guard before
`FileDictArray.append` — the backing file changes. -/
theorem c1_duplicate_key_atomic (d b : DictArray) (k : String)
    (f : List (List String)) (av bv : List Value)
    (hne : d.rows ≠ [])
    (ha : d.colOf k = some av) (hb : b.colOf k = some bv)
    (hov : bv.any (fun v => av.any (fun w => valueEq v w)) = true) :
    relationalAppendRun { data := d, primarykey := some k } (Obj.table b) =
      ({ data := d, primarykey := some k }, some Err.duplicateKey) ∧
    fileRelationalAppendRun { data := d, primarykey := some k, file := f }
        (Obj.table b) =
      ({ data := d, primarykey := some k, file := f }, some Err.duplicateKey) := by
  have hdn := colOf_names_ne_nil ha
  have hbn := colOf_names_ne_nil hb
  have hcan : can_append d b (some k) = some false := by
    simp [can_append, hdn, hbn, ha, hb, hov]
  have hfull := isempty_eq_false hne
  constructor
  · simp [relationalAppendRun, relationalAppend, dictarrayCtor, hfull, hcan]
  · simp [fileRelationalAppendRun, fileRelationalAppend, dictarrayCtor, hfull, hcan]

def w1d : DictArray :=
  { names := ["k", "v"], tys := [Ty.int, Ty.int],
    rows := [[Value.vInt 1, Value.vInt 10]] }

def w1b : DictArray :=
  { names := ["k", "v"], tys := [Ty.int, Ty.int],
    rows := [[Value.vInt 1, Value.vInt 20]] }

/-- Witness for C1: one held row with k=1, candidate with k=1, both the
plain relational table and the file-mirrored one reject and stay put. -/
theorem c1_duplicate_key_atomic_witness :
    relationalAppendRun { data := w1d, primarykey := some "k" } (Obj.table w1b) =
      ({ data := w1d, primarykey := some "k" }, some Err.duplicateKey) ∧
    fileRelationalAppendRun
        { data := w1d, primarykey := some "k", file := [["k", "v"], ["1", "10"]] }
        (Obj.table w1b) =
      ({ data := w1d, primarykey := some "k", file := [["k", "v"], ["1", "10"]] },
        some Err.duplicateKey) :=
  c1_duplicate_key_atomic w1d w1b "k" [["k", "v"], ["1", "10"]]
    [Value.vInt 1] [Value.vInt 1] (by decide) (by decide) (by decide) (by decide)

theorem collectIds_eq_map {d : DictArray} {preds : List (String × List Value)}
    (hvalid : ∀ p ∈ preds, p.1 ∈ d.names) :
    collectIds d preds = some (preds.map (fun p => matchList d p.1 p.2)) := by
  induction preds with
  | nil => rfl
  | cons p ps ih =>
    obtain ⟨j, hj⟩ := idxOf?_mem (hvalid p (List.mem_cons_self p ps))
    have hmp : matchPositions d p.1 p.2 = some (matchList d p.1 p.2) := by
      simp [matchPositions, matchList, DictArray.fieldIdx, hj]
    have hrest := ih (fun q hq => hvalid q (List.mem_cons_of_mem p hq))
    simp [collectIds, hmp, hrest]

/-- C3: with at least one predicate, all naming existing fields,
`itemindex` returns (inside the 1-tuple numpy's nonzero convention wraps
it in) exactly the concatenation, in predicate order and preserving
duplicates, of the per-field lists of row positions whose value under
that field is a member of the predicate's value set; each per-field list
holds exactly those positions, in strictly increasing order — union
semantics across predicates, not intersection
(src/dictarray.py lines 94-101). -/
theorem c3_union_lookup (d : DictArray) (preds : List (String × List Value))
    (hvalid : ∀ p ∈ preds, p.1 ∈ d.names) (hne : preds ≠ []) :
    d.itemindex preds =
      some [joinAll (preds.map (fun p => matchList d p.1 p.2))] ∧
    (∀ p ∈ preds, ∀ i : Nat,
        i ∈ matchList d p.1 p.2 ↔
          i < d.rows.length ∧
            (p.2.any (fun v => valueEq (rowVal d (d.rows.getD i []) p.1) v)) = true) ∧
    (∀ p ∈ preds, (matchList d p.1 p.2).Pairwise (fun i j => i < j)) := by
  refine ⟨?_, ?_, ?_⟩
  · have hmapne : preds.map (fun p => matchList d p.1 p.2) ≠ [] := by
      cases preds with
      | nil => exact absurd rfl hne
      | cons p ps => simp
    have : (preds.map (fun p => matchList d p.1 p.2)).isEmpty = false := by
      cases hm : preds.map (fun p => matchList d p.1 p.2) with
      | nil => exact absurd hm hmapne
      | cons x xs => rfl
    simp [DictArray.itemindex, collectIds_eq_map hvalid, this]
  · intro p hp i
    obtain ⟨j, hj⟩ := idxOf?_mem (hvalid p hp)
    rw [rowVal_of_idxOf? d _ p.1 hj]
    simp [matchList, matchPositions, DictArray.fieldIdx, hj, List.mem_filter,
      List.mem_range, valueAt]
  · intro p hp
    obtain ⟨j, hj⟩ := idxOf?_mem (hvalid p hp)
    have : matchList d p.1 p.2 =
        (List.range d.rows.length).filter
          (fun i => p.2.any (fun v => valueEq (valueAt d i j) v)) := by
      simp [matchList, matchPositions, DictArray.fieldIdx, hj]
    rw [this]
    exact List.Pairwise.sublist (List.filter_sublist _) (List.pairwise_lt_range _)

def w3d : DictArray :=
  { names := ["a", "b"], tys := [Ty.int, Ty.int],
    rows := [[Value.vInt 1, Value.vInt 2], [Value.vInt 3, Value.vInt 4],
             [Value.vInt 5, Value.vInt 6]] }

/-- Witness for C3 at the doctest table (columns a = 1,3,5 and
b = 2,4,6) and the two-predicate query a=5, b=2. -/
theorem c3_union_lookup_witness :
    w3d.itemindex [("a", [Value.vInt 5]), ("b", [Value.vInt 2])] =
      some [joinAll
        ([("a", [Value.vInt 5]), ("b", [Value.vInt 2])].map
          (fun p => matchList w3d p.1 p.2))] :=
  (c3_union_lookup w3d [("a", [Value.vInt 5]), ("b", [Value.vInt 2])]
    (by decide) (by decide)).1

theorem appendDA_nonempty {a b : DictArray} (hna : a.rows ≠ []) (hnb : b.rows ≠ []) :
    appendDA a (Obj.table b) = nonEmptyAppend a b := by
  simp [appendDA, dictarrayCtor, isempty_eq_false hna, isempty_eq_false hnb]

theorem nonEmptyAppend_ok {a b r : DictArray}
    (h : nonEmptyAppend a b = Except.ok r) :
    a.names.all (fun n => decide (n ∈ b.names)) = true ∧
    r = { names := a.names
          tys := a.names.map (fun n => promoteTy (a.tyOf n) (b.tyOf n))
          rows :=
            a.rows.map (fun row =>
              a.names.map (fun n =>
                castValue (promoteTy (a.tyOf n) (b.tyOf n)) (rowVal a row n))) ++
            b.rows.map (fun row =>
              a.names.map (fun n =>
                castValue (promoteTy (a.tyOf n) (b.tyOf n)) (rowVal b row n))) } := by
  by_cases hg : a.names.all (fun n => decide (n ∈ b.names)) = true
  · rw [nonEmptyAppend, if_pos hg] at h
    cases h
    exact ⟨hg, rfl⟩
  · rw [nonEmptyAppend, if_neg hg] at h
    cases h

/-- C5: appending two non-empty tables promotes each column of the first
table's schema to `result_type` of the two columns under that name
(src/dictarray_mutable.py line 78): a column integer-typed in one table
and floating-point-typed in the other comes out floating-point, and a
column integer-typed in one and text-typed in the other comes out text. -/
theorem c5_type_promotion (a b r : DictArray) (n : String)
    (hna : a.rows ≠ []) (hnb : b.rows ≠ [])
    (hstep : appendDA a (Obj.table b) = Except.ok r) (hmem : n ∈ a.names) :
    ((a.tyOf n = Ty.int ∧ b.tyOf n = Ty.float) ∨
        (a.tyOf n = Ty.float ∧ b.tyOf n = Ty.int) →
      r.tyOf n = Ty.float) ∧
    ((a.tyOf n = Ty.int ∧ b.tyOf n = Ty.text) ∨
        (a.tyOf n = Ty.text ∧ b.tyOf n = Ty.int) →
      r.tyOf n = Ty.text) := by
  rw [appendDA_nonempty hna hnb] at hstep
  obtain ⟨-, rfl⟩ := nonEmptyAppend_ok hstep
  obtain ⟨j, hj⟩ := idxOf?_mem hmem
  have hr : DictArray.tyOf
      { names := a.names
        tys := a.names.map (fun n => promoteTy (a.tyOf n) (b.tyOf n))
        rows :=
          a.rows.map (fun row =>
            a.names.map (fun n =>
              castValue (promoteTy (a.tyOf n) (b.tyOf n)) (rowVal a row n))) ++
          b.rows.map (fun row =>
            a.names.map (fun n =>
              castValue (promoteTy (a.tyOf n) (b.tyOf n)) (rowVal b row n))) } n =
      promoteTy (a.tyOf n) (b.tyOf n) := by
    rw [DictArray.tyOf, DictArray.fieldIdx]
    simp only [hj]
    exact map_getD_of_idxOf? _ hj _
  rw [hr]
  constructor
  · rintro (⟨h1, h2⟩ | ⟨h1, h2⟩) <;> rw [h1, h2] <;> rfl
  · rintro (⟨h1, h2⟩ | ⟨h1, h2⟩) <;> rw [h1, h2] <;> rfl

def w5a : DictArray :=
  { names := ["x"], tys := [Ty.int], rows := [[Value.vInt 1]] }

def w5b : DictArray :=
  { names := ["x"], tys := [Ty.float], rows := [[Value.vFloat (5 / 2)]] }

def w5r : DictArray :=
  { names := ["x"], tys := [Ty.float],
    rows := [[Value.vFloat 1], [Value.vFloat (5 / 2)]] }

/-- Witness for C5: appending a floating-point column x onto an integer
column x yields a floating-point column x. -/
theorem c5_type_promotion_witness : w5r.tyOf "x" = Ty.float :=
  (c5_type_promotion w5a w5b w5r "x" (by decide) (by decide) rfl
    (by decide)).1 (Or.inl ⟨rfl, rfl⟩)

theorem map_congr_mem {l : List α} {f g : α → β} (h : ∀ x ∈ l, f x = g x) :
    l.map f = l.map g := by
  induction l with
  | nil => rfl
  | cons x xs ih =>
    simp only [List.map_cons, h x (List.mem_cons_self x xs),
      ih (fun y hy => h y (List.mem_cons_of_mem x hy))]

def c6caA : DictArray :=
  { names := ["x"], tys := [Ty.int], rows := [[Value.vInt 1]] }

def c6caB : DictArray :=
  { names := ["x"], tys := [Ty.text], rows := [[Value.vText "u"]] }

def c6caR : DictArray :=
  { names := ["x"], tys := [Ty.text],
    rows := [[Value.vText "1"], [Value.vText "u"]] }

/-- C6 counterexample to the claim as stated: the two tables share the
single field name x (equal name sets), both are non-empty, and the
append succeeds — but under the int + text promotion the first table's
own cell, the integer 1, is cast to the text value 1
(src/dictarray_mutable.py lines 78-80), so the result's rows read by
name are not a's rows followed by b's rows: column x comes out as the
text values 1, u instead of the integer 1 followed by the text u. -/
theorem c6_cast_counterexample :
    c6caA.names = c6caB.names ∧
    appendDA c6caA (Obj.table c6caB) = Except.ok c6caR ∧
    c6caA.colOf "x" = some [Value.vInt 1] ∧
    c6caB.colOf "x" = some [Value.vText "u"] ∧
    c6caR.colOf "x" = some [Value.vText "1", Value.vText "u"] ∧
    c6caR.colOf "x" ≠ some [Value.vInt 1, Value.vText "u"] := by
  refine ⟨rfl, rfl, rfl, rfl, rfl, by decide⟩

/-- C6 (amended): appending two non-empty tables with equal field-name
sets yields a table carrying the first table's schema, holding a's rows
followed by b's rows realigned to a's names by name — with every value
cast to the per-name promoted kind (src/dictarray_mutable.py lines
77-82, module doctest d1).  The result is unaffected by b's field-name
ordering, since each named column of the result is the promoted cast of
a's column followed by the promoted cast of b's column under that name;
when the per-name column kinds of a and b already agree the cast is the
identity and the rows read by name are exactly a's rows then b's rows. -/
theorem c6_order_preservation_amended (a b : DictArray)
    (hna : a.rows ≠ []) (hnb : b.rows ≠ [])
    (hset : ∀ n, n ∈ a.names ↔ n ∈ b.names) :
    (∃ r, appendDA a (Obj.table b) = Except.ok r) ∧
      ∀ r, appendDA a (Obj.table b) = Except.ok r →
        r.names = a.names ∧ r.rows.length = a.rows.length + b.rows.length ∧
          (∀ n ∈ a.names, ∀ ca cb, a.colOf n = some ca → b.colOf n = some cb →
            r.colOf n =
              some (ca.map (castValue (promoteTy (a.tyOf n) (b.tyOf n))) ++
                cb.map (castValue (promoteTy (a.tyOf n) (b.tyOf n))))) ∧
          (WF a → WF b → (∀ n ∈ a.names, b.tyOf n = a.tyOf n) →
            ∀ n ∈ a.names, ∀ ca cb, a.colOf n = some ca → b.colOf n = some cb →
              r.colOf n = some (ca ++ cb)) := by
  have hguard : a.names.all (fun n => decide (n ∈ b.names)) = true := by
    simp only [List.all_eq_true, decide_eq_true_eq]
    intro n hn
    exact (hset n).1 hn
  constructor
  · exact ⟨_, by rw [appendDA_nonempty hna hnb, nonEmptyAppend, if_pos hguard]⟩
  intro r hr
  rw [appendDA_nonempty hna hnb] at hr
  obtain ⟨-, rfl⟩ := nonEmptyAppend_ok hr
  refine ⟨rfl, by simp, ?_, ?_⟩
  · intro n hn ca cb hca hcb
    obtain ⟨j, hj⟩ := idxOf?_mem hn
    obtain ⟨jb, hjb⟩ := idxOf?_mem ((hset n).1 hn)
    rw [colOf_of_idxOf? a n hj] at hca
    rw [colOf_of_idxOf? b n hjb] at hcb
    obtain rfl := Option.some.inj hca
    obtain rfl := Option.some.inj hcb
    simp only [DictArray.colOf, DictArray.fieldIdx, hj]
    refine congrArg some ?_
    rw [List.map_append, List.map_map, List.map_map, List.map_map, List.map_map]
    congr 1
    · apply map_congr_mem
      intro rr _
      show (a.names.map fun n' =>
          castValue (promoteTy (a.tyOf n') (b.tyOf n')) (rowVal a rr n')).getD j
          (Value.vInt 0) =
        castValue (promoteTy (a.tyOf n) (b.tyOf n)) (rr.getD j (Value.vInt 0))
      rw [map_getD_of_idxOf? _ hj, rowVal_of_idxOf? a rr n hj]
    · apply map_congr_mem
      intro rr _
      show (a.names.map fun n' =>
          castValue (promoteTy (a.tyOf n') (b.tyOf n')) (rowVal b rr n')).getD j
          (Value.vInt 0) =
        castValue (promoteTy (a.tyOf n) (b.tyOf n)) (rr.getD jb (Value.vInt 0))
      rw [map_getD_of_idxOf? _ hj, rowVal_of_idxOf? b rr n hjb]
  · intro hwa hwb hty n hn ca cb hca hcb
    obtain ⟨j, hj⟩ := idxOf?_mem hn
    obtain ⟨jb, hjb⟩ := idxOf?_mem ((hset n).1 hn)
    have hpro : promoteTy (a.tyOf n) (b.tyOf n) = a.tyOf n := by
      rw [hty n hn, promoteTy_self]
    rw [colOf_of_idxOf? a n hj] at hca
    rw [colOf_of_idxOf? b n hjb] at hcb
    obtain rfl := Option.some.inj hca
    obtain rfl := Option.some.inj hcb
    simp only [DictArray.colOf, DictArray.fieldIdx, hj]
    refine congrArg some ?_
    rw [List.map_append, List.map_map, List.map_map]
    congr 1
    · apply map_congr_mem
      intro rr hrr
      show (a.names.map fun n' =>
          castValue (promoteTy (a.tyOf n') (b.tyOf n')) (rowVal a rr n')).getD j
          (Value.vInt 0) = rr.getD j (Value.vInt 0)
      rw [map_getD_of_idxOf? _ hj, hpro, rowVal_of_idxOf? a rr n hj]
      apply castValue_of_hasTy
      have hwf := hwa.2.2 rr hrr
      have hjlen : j < rr.length := by
        rw [hwf.1]
        exact idxOf?_lt hj
      have := hwf.2 j hjlen
      rwa [tyOf_of_idxOf? a n hj]
    · apply map_congr_mem
      intro rr hrr
      show (a.names.map fun n' =>
          castValue (promoteTy (a.tyOf n') (b.tyOf n')) (rowVal b rr n')).getD j
          (Value.vInt 0) = rr.getD jb (Value.vInt 0)
      rw [map_getD_of_idxOf? _ hj, hpro, rowVal_of_idxOf? b rr n hjb]
      apply castValue_of_hasTy
      have hwf := hwb.2.2 rr hrr
      have hjlen : jb < rr.length := by
        rw [hwf.1]
        exact idxOf?_lt hjb
      have hbt : a.tyOf n = b.tys.getD jb Ty.void := by
        rw [← hty n hn, tyOf_of_idxOf? b n hjb]
      rw [hbt]
      exact hwf.2 jb hjlen

def w6a : DictArray :=
  { names := ["a", "b"], tys := [Ty.int, Ty.int],
    rows := [[Value.vInt 1, Value.vInt 2]] }

def w6b : DictArray :=
  { names := ["b", "a"], tys := [Ty.int, Ty.int],
    rows := [[Value.vInt 4, Value.vInt 3]] }

def w6r : DictArray :=
  { names := ["a", "b"], tys := [Ty.int, Ty.int],
    rows := [[Value.vInt 1, Value.vInt 2], [Value.vInt 3, Value.vInt 4]] }

/-- Witness for the amended C6 at the module doctest: appending the row
b=4, a=3 onto the table holding a=1, b=2 (equal kinds, so the promoted
cast is the identity) yields column a = 1,3 and keeps a's schema,
despite b's swapped field order. -/
theorem c6_order_preservation_amended_witness :
    w6r.names = w6a.names ∧
    w6r.rows.length = w6a.rows.length + w6b.rows.length ∧
    w6r.colOf "a" = some [Value.vInt 1, Value.vInt 3] := by
  have h := c6_order_preservation_amended w6a w6b (by decide) (by decide)
    (by intro n; simp [w6a, w6b, or_comm])
  have h2 := h.2 w6r rfl
  exact ⟨h2.1, h2.2.1, h2.2.2.2 (by decide) (by decide) (by decide) "a"
    (by decide) [Value.vInt 1] [Value.vInt 3] (by decide) (by decide)⟩

theorem selectFields_ok {b : DictArray} {ns : List String}
    (hsub : ∀ n ∈ ns, n ∈ b.names) :
    selectFields b ns =
      Except.ok
        { names := ns
          tys := ns.map b.tyOf
          rows := b.rows.map (fun r => ns.map (fun n => rowVal b r n)) } := by
  have hg : ns.all (fun n => decide (n ∈ b.names)) = true := by
    simp only [List.all_eq_true, decide_eq_true_eq]
    exact hsub
  rw [selectFields, if_pos hg]

/-- C8 (amended): appending a non-empty table T to an empty table that
declares names N rebuilds T as `dictarray(T, names=N)`
(src/dictarray_mutable.py lines 73-76), i.e. numpy multi-field selection
T[N] (src/dictarray.py lines 198-203).  When every name of N is a field
of T, the append succeeds and yields T's columns under N, realigned by
name and independent of T's own field ordering — silently dropping any
field of T not named by N; only when some name of N is absent from T
does the append fail (with a field-lookup error, not before silently
subsetting). -/
theorem c8_empty_left_amended (a b : DictArray)
    (hea : a.rows = []) (hna : a.names ≠ []) (hnb : b.rows ≠ []) :
    ((∀ n ∈ a.names, n ∈ b.names) →
        (∃ r, appendDA a (Obj.table b) = Except.ok r) ∧
        ∀ r, appendDA a (Obj.table b) = Except.ok r →
          r.names = a.names ∧ r.rows.length = b.rows.length ∧
            ∀ n ∈ a.names, ∀ cb, b.colOf n = some cb → r.colOf n = some cb) ∧
    ((∃ n, n ∈ a.names ∧ n ∉ b.names) →
        appendDA a (Obj.table b) = Except.error Err.fieldNotFound) := by
  have hae : isempty a = true := by simp [isempty, hea]
  have hnn : a.names.isEmpty = false := by
    cases h : a.names with
    | nil => exact absurd h hna
    | cons x xs => rfl
  have hred : appendDA a (Obj.table b) = selectFields b a.names := by
    simp [appendDA, dictarrayCtor, hae, isempty_eq_false hnb, hnn]
  constructor
  · intro hsub
    rw [hred, selectFields_ok hsub]
    refine ⟨⟨_, rfl⟩, ?_⟩
    intro r hr
    cases hr
    refine ⟨rfl, by simp, ?_⟩
    intro n hn cb hcb
    obtain ⟨j, hj⟩ := idxOf?_mem hn
    obtain ⟨jb, hjb⟩ := idxOf?_mem (hsub n hn)
    rw [colOf_of_idxOf? b n hjb] at hcb
    obtain rfl := Option.some.inj hcb
    simp only [DictArray.colOf, DictArray.fieldIdx, hj]
    refine congrArg some ?_
    rw [List.map_map]
    apply map_congr_mem
    intro rr hrr
    show (a.names.map fun n' => rowVal b rr n').getD j (Value.vInt 0) =
      rr.getD jb (Value.vInt 0)
    rw [map_getD_of_idxOf? _ hj, rowVal_of_idxOf? b rr n hjb]
  · rintro ⟨n, hn, hnb2⟩
    have hg : a.names.all (fun n => decide (n ∈ b.names)) = false := by
      cases h : a.names.all (fun n => decide (n ∈ b.names)) with
      | false => rfl
      | true =>
        rw [List.all_eq_true] at h
        exact absurd (of_decide_eq_true (h n hn)) hnb2
    rw [hred, selectFields, if_neg (by rw [hg]; exact Bool.false_ne_true)]

def c8caA : DictArray := { names := ["a"], tys := [Ty.void], rows := [] }

def c8caB : DictArray :=
  { names := ["a", "b"], tys := [Ty.int, Ty.int],
    rows := [[Value.vInt 1, Value.vInt 2]] }

/-- C8 counterexample to the claim as stated: the empty table declares
only the name a while the candidate declares names a and b — the name
sets differ — yet the append does not fail with a schema-mismatch error:
it succeeds, silently dropping the candidate's field b. -/
theorem c8_silent_drop_counterexample :
    ("b" ∈ c8caB.names ∧ "b" ∉ c8caA.names) ∧
    appendDA c8caA (Obj.table c8caB) =
      Except.ok { names := ["a"], tys := [Ty.int], rows := [[Value.vInt 1]] } := by
  exact ⟨by decide, rfl⟩

/-- Witness for the amended C8: with matching name sets in swapped order,
the append adopts the candidate under the empty table's names, keeping
column x intact. -/
theorem c8_empty_left_amended_witness :
    DictArray.colOf
        { names := ["x", "y"], tys := [Ty.int, Ty.int],
          rows := [[Value.vInt 5, Value.vInt 6]] } "x" = some [Value.vInt 5] := by
  have h := (c8_empty_left_amended
    { names := ["x", "y"], tys := [Ty.void, Ty.void], rows := [] }
    { names := ["y", "x"], tys := [Ty.int, Ty.int],
      rows := [[Value.vInt 6, Value.vInt 5]] }
    rfl (by decide) (by decide)).1 (by decide)
  exact (h.2 _ rfl).2.2 "x" (by decide) [Value.vInt 5] (by decide)

theorem isEmpty_eq_false_of_ne {l : List α} (h : l ≠ []) : l.isEmpty = false := by
  cases l with
  | nil => exact absurd rfl h
  | cons x xs => rfl

theorem head?_append_left {l l' : List α} (h : l ≠ []) :
    (l ++ l').head? = l.head? := by
  cases l with
  | nil => exact absurd rfl h
  | cons x xs => rfl

theorem selectFields_ok_elim {d r : DictArray} {ns : List String}
    (h : selectFields d ns = Except.ok r) :
    r.names = ns ∧ r.tys = ns.map d.tyOf ∧
      r.rows = d.rows.map (fun row => ns.map (fun n => rowVal d row n)) := by
  by_cases hg : ns.all (fun n => decide (n ∈ d.names)) = true
  · rw [selectFields, if_pos hg] at h
    cases h
    exact ⟨rfl, rfl, rfl⟩
  · rw [selectFields, if_neg hg] at h
    cases h

theorem fileAppendStep_ok {data : DictArray} {file : List (List String)}
    {obj : Obj} {arr : DictArray} {p : DictArray × List (List String)}
    (harr : dictarrayCtor obj
        (if data.names.isEmpty then none else some data.names) = Except.ok arr)
    (hfs : fileAppendStep data file obj = Except.ok p) :
    appendDA data (Obj.table arr) = Except.ok p.1 ∧
    p.2 = file ++ (if isempty data then [arr.names] else [])
        ++ arr.rows.map (fun r => r.map Value.textOf) := by
  obtain ⟨p1, p2⟩ := p
  simp only [fileAppendStep, harr] at hfs
  cases happ : appendDA data (Obj.table arr) with
  | error e => simp [happ] at hfs
  | ok d2 =>
    simp only [happ, Except.ok.injEq, Prod.mk.injEq] at hfs
    obtain ⟨h1, h2⟩ := hfs
    subst h1
    subst h2
    exact ⟨rfl, rfl⟩

def c2s0 : FileState :=
  { data := { names := ["a", "b"], tys := [Ty.void, Ty.void], rows := [] },
    file := [] }

def c2s1 : FileState :=
  { data := { names := ["a", "b"], tys := [Ty.void, Ty.void], rows := [] },
    file := [["a", "b"]] }

def c2cand : DictArray :=
  { names := ["a", "b"], tys := [Ty.int, Ty.int],
    rows := [[Value.vInt 1, Value.vInt 2]] }

def c2s2 : FileState :=
  { data := c2cand, file := [["a", "b"], ["a", "b"], ["1", "2"]] }

/-- C2 counterexample to the claim as stated: from a fresh empty
file-mirrored table declaring names a, b, a successful append of an
empty candidate writes a bare header line, and a following successful
append of the row 1, 2 writes a second header plus the row — after that
successful append the file has three lines while "header plus one line
per row" demands two, so the claimed invariant fails. -/
theorem c2_mirror_counterexample :
    fileDictArrayAppend c2s0 Obj.emptyObj = Except.ok c2s1 ∧
    fileDictArrayAppend c2s1 (Obj.table c2cand) = Except.ok c2s2 ∧
    c2s2.data.rows.length = 1 ∧
    c2s2.file.length ≠ 1 + c2s2.data.rows.length := by
  refine ⟨rfl, rfl, rfl, by decide⟩

/-- C2 (amended): the claimed file-mirror behavior holds for appends
whose candidate is non-empty: on success the file grows by exactly the
header line (written iff the table was empty before the call, never
rewriting prior lines) followed by the candidate's rows in append order,
the in-memory table grows by exactly the candidate's rows, and the
header-plus-one-line-per-row file invariant is preserved.  (An append
with an empty candidate instead adds a spurious extra header line on an
empty table — see C10 and the counterexample.) -/
theorem c2_mirror_amended (s : FileState) (obj : Obj) (arr : DictArray)
    (s' : FileState)
    (harr : dictarrayCtor obj
        (if s.data.names.isEmpty then none else some s.data.names) = Except.ok arr)
    (hne : arr.rows ≠ [])
    (hstep : fileDictArrayAppend s obj = Except.ok s') :
    s'.file = s.file ++ (if isempty s.data then [arr.names] else [])
        ++ arr.rows.map (fun r => r.map Value.textOf) ∧
    s'.data.rows.length = s.data.rows.length + arr.rows.length ∧
    (mirrorInv s → mirrorInv s') := by
  cases hfs : fileAppendStep s.data s.file obj with
  | error e => simp [fileDictArrayAppend, hfs] at hstep
  | ok p =>
    simp only [fileDictArrayAppend, hfs, Except.ok.injEq] at hstep
    subst hstep
    obtain ⟨hda, hfile⟩ := fileAppendStep_ok harr hfs
    have hfacts : p.1.rows.length = s.data.rows.length + arr.rows.length ∧
        (s.data.rows = [] → p.1.names = arr.names) ∧
        (s.data.rows ≠ [] → p.1.names = s.data.names) := by
      by_cases hempty : s.data.rows = []
      · have hae : isempty s.data = true := by simp [isempty, hempty]
        cases hn : s.data.names.isEmpty with
        | true =>
          have hd : appendDA s.data (Obj.table arr) = Except.ok arr := by
            simp [appendDA, dictarrayCtor, hae, isempty_eq_false hne, hn]
          rw [hd] at hda
          have hp : p.1 = arr := (Except.ok.inj hda).symm
          refine ⟨by rw [hp, hempty]; simp, fun _ => by rw [hp],
            fun h => absurd hempty h⟩
        | false =>
          simp only [hn, Bool.false_eq_true, if_false] at harr
          have hnames_arr : arr.names = s.data.names := by
            cases obj with
            | emptyObj =>
              simp only [dictarrayCtor, Except.ok.injEq] at harr
              exact absurd (by rw [← harr]) hne
            | table d0 => exact (selectFields_ok_elim harr).1
          have hd : appendDA s.data (Obj.table arr) =
              selectFields arr s.data.names := by
            simp [appendDA, dictarrayCtor, hae, isempty_eq_false hne, hn]
          rw [hd] at hda
          have hsub : ∀ n ∈ s.data.names, n ∈ arr.names := by
            rw [hnames_arr]
            exact fun n h => h
          rw [selectFields_ok hsub] at hda
          have hp := (Except.ok.inj hda).symm
          refine ⟨by rw [hp, hempty]; simp, fun _ => by rw [hp, hnames_arr],
            fun h => absurd hempty h⟩
      · rw [appendDA_nonempty hempty hne] at hda
        obtain ⟨-, hrec⟩ := nonEmptyAppend_ok hda
        refine ⟨by rw [hrec]; simp, fun h => absurd h hempty, fun _ => by rw [hrec]⟩
    refine ⟨hfile, hfacts.1, ?_⟩
    intro hinv
    by_cases hempty : s.data.rows = []
    · have hfe : s.file = [] := by
        simpa [mirrorInv, hempty] using hinv
      have hplen : p.1.rows.length = arr.rows.length := by
        rw [hfacts.1, hempty]
        simp
      have hpne : p.1.rows ≠ [] := by
        intro h0
        rw [h0] at hplen
        exact hne (List.length_eq_zero.1 hplen.symm)
      have hpnames : p.1.names = arr.names := hfacts.2.1 hempty
      have hds : isempty s.data = true := by simp [isempty, hempty]
      simp only [mirrorInv, isEmpty_eq_false_of_ne hpne, Bool.false_eq_true,
        if_false]
      constructor
      · rw [hfile, hfe, hds, hplen]
        simp
        omega
      · rw [hfile, hfe, hds, hpnames]
        rfl
    · have hinv' : s.file.length = 1 + s.data.rows.length ∧
          s.file.head? = some s.data.names := by
        simpa [mirrorInv, isEmpty_eq_false_of_ne hempty] using hinv
      have hpnames : p.1.names = s.data.names := hfacts.2.2 hempty
      have hpne : p.1.rows ≠ [] := by
        apply List.length_pos.1
        rw [hfacts.1]
        have := List.length_pos.2 hempty
        omega
      have hsf : s.file ≠ [] := by
        intro h0
        rw [h0] at hinv'
        have h1 := hinv'.1
        simp at h1
        omega
      have hds : isempty s.data = false := isempty_eq_false hempty
      simp only [mirrorInv, isEmpty_eq_false_of_ne hpne, Bool.false_eq_true,
        if_false]
      constructor
      · rw [hfile, hds, hfacts.1]
        simp only [Bool.false_eq_true, if_false, List.append_nil,
          List.length_append, List.length_map, hinv'.1]
        omega
      · rw [hfile, hds]
        simp only [Bool.false_eq_true, if_false, List.append_nil]
        rw [head?_append_left hsf, hinv'.2, hpnames]

def wc2s : FileState :=
  { data := { names := ["a"], tys := [Ty.void], rows := [] }, file := [] }

def wc2b : DictArray :=
  { names := ["a"], tys := [Ty.int], rows := [[Value.vInt 7]] }

def wc2s' : FileState :=
  { data := { names := ["a"], tys := [Ty.int], rows := [[Value.vInt 7]] },
    file := [["a"], ["7"]] }

/-- Witness for the amended C2: a first non-empty append on an empty
named table writes the header plus the new row and preserves the mirror
invariant. -/
theorem c2_mirror_amended_witness :
    wc2s'.file = wc2s.file ++ (if isempty wc2s.data then [wc2b.names] else [])
        ++ wc2b.rows.map (fun r => r.map Value.textOf) ∧
    wc2s'.data.rows.length = wc2s.data.rows.length + wc2b.rows.length ∧
    (mirrorInv wc2s → mirrorInv wc2s') :=
  c2_mirror_amended wc2s (Obj.table wc2b) wc2b wc2s' rfl (by decide) rfl
